import Mathlib

/-!
Verification of the hekaanom streaming pipeline (window aggregation,
span assembly, bin aggregation).

Shallow embedding conventions:
 * Go `time.Time` and `time.Duration` are modelled as `Int` nanoseconds
   (the zero time is 0).  Configured widths are whole seconds, multiplied
   by `nsPerSecond` exactly where the Go code multiplies by `time.Second`.
 * Go `float64` values are modelled as `ℚ` (exact arithmetic; the code
   only adds, compares and averages magnitudes).
 * Go maps (`map[string]*span`, `map[string]*Window`, `map[time.Time]*Bin`)
   are modelled as association lists with `getEntry` / `setEntry` /
   `delEntry`; in-place mutation of a map entry through a pointer becomes
   `setEntry` of the updated record.
 * Channel emission becomes an output list, in emission order.
-/

/-- One second of Go `time.Duration`, in nanoseconds. -/
def nsPerSecond : Int := 1000000000

/-- `int64(d / time.Second)` for a duration `d` in nanoseconds: Go duration
division is 64-bit integer division, which truncates toward zero. -/
def durSeconds (d : Int) : Int := d.tdiv nsPerSecond

/-- Go `Time.Truncate`: round `t` down to a multiple of `w` (since the zero
time).  For `w > 0` this is `t - t.emod w`, the greatest multiple of `w`
that does not exceed `t`. -/
def truncateTime (t w : Int) : Int := t - t.emod w

/-! ### Association-list maps -/

/-- Lookup in an association list (Go map read `m[k]`). -/
def getEntry (k : String) : List (String × α) → Option α
  | [] => none
  | (k', v) :: rest => if k = k' then some v else getEntry k rest

/-- Insert-or-replace in an association list (Go map write `m[k] = v`,
or in-place mutation of the entry's pointee). -/
def setEntry (k : String) (v : α) : List (String × α) → List (String × α)
  | [] => [(k, v)]
  | (k', v') :: rest => if k = k' then (k, v) :: rest else (k', v') :: setEntry k v rest

/-- Deletion from an association list (Go `delete(m, k)`). -/
def delEntry (k : String) : List (String × α) → List (String × α)
  | [] => []
  | (k', v') :: rest => if k = k' then delEntry k rest else (k', v') :: delEntry k rest

/-- Integer-keyed lookup, for the bin map `map[time.Time]*Bin`. -/
def getEntryT (k : Int) : List (Int × α) → Option α
  | [] => none
  | (k', v) :: rest => if k = k' then some v else getEntryT k rest

/-- Integer-keyed insert-or-replace, for the bin map. -/
def setEntryT (k : Int) (v : α) : List (Int × α) → List (Int × α)
  | [] => [(k, v)]
  | (k', v') :: rest => if k = k' then (k, v) :: rest else (k', v') :: setEntryT k v rest

/-! ### Data model

The record types below (`Metric`, `Window`, `Ruling`, `Span`, `Bin`) are
declared in a repository file that is not part of the provided sources;
their fields are exactly the ones the provided code reads and writes,
with the spec's data-model section fixing the rest. -/

/-- Modelled from the spec: a raw metric point
{series identifier, timestamp, numeric value, opaque passthrough payload}. -/
structure Metric where
  Series : String
  Timestamp : Int
  Value : ℚ
  Passthrough : String
deriving DecidableEq, Repr

/-- Modelled from the spec: a window
{series, start, end, aggregated value, passthrough}.  The Go zero value
(fresh accumulator) has `Start = End = 0` and `Value = 0`. -/
structure Window where
  Series : String
  Start : Int
  End : Int
  Value : ℚ
  Passthrough : String
deriving DecidableEq, Repr

/-- Modelled from the spec: a ruling is a window annotated with an anomaly
flag and named numeric fields; the span assembler reads the magnitude by a
configured field name (`Fields` models the struct's reflectable numeric
fields, name-keyed). -/
structure Ruling where
  Window : Window
  Anomalous : Bool
  Fields : List (String × ℚ)
deriving DecidableEq, Repr

/-- Modelled from the spec: a span
{series, ordered magnitude sequence, start, end, duration, score,
passthrough}; `Duration` and `Score` are stamped at flush time and are zero
while the span is in progress. -/
structure Span where
  Series : String
  Values : List ℚ
  Start : Int
  End : Int
  Duration : Int := 0
  Score : ℚ := 0
  Passthrough : String
deriving DecidableEq, Repr

/-- Modelled from the spec: a bin
{start, end = start + bin width, count, ordered contributor list}. -/
structure Bin where
  Start : Int
  End : Int
  Count : Int := 0
  Entries : List String := []
deriving DecidableEq, Repr

/-! ### Aggregate statistics

The statistic primitives come from the external `montanaflynn/stats`
library; the spec treats them as library primitives (they fail on empty
input).  Only their names and the failure case matter to the claims. -/

/-- Modelled from the spec: library `stats.Sum`; fails on empty input. -/
def statsSum (xs : List ℚ) : Option ℚ :=
  if xs = [] then none else some (xs.foldl (· + ·) 0)

/-- Modelled from the spec: library `stats.Mean`; fails on empty input. -/
def statsMean (xs : List ℚ) : Option ℚ :=
  if xs = [] then none else some ((xs.foldl (· + ·) 0) / xs.length)

/-- Median of an already-sorted nonempty list. -/
def medianSorted (l : List ℚ) : ℚ :=
  if l.length % 2 = 1 then l.getD (l.length / 2) 0
  else (l.getD (l.length / 2 - 1) 0 + l.getD (l.length / 2) 0) / 2

/-- Modelled from the spec: library `stats.Median`; fails on empty input. -/
def statsMedian (xs : List ℚ) : Option ℚ :=
  if xs = [] then none else some (medianSorted (xs.mergeSort (· ≤ ·)))

/-- Lower and upper halves used by the library's quartiles. -/
def halves (l : List ℚ) : List ℚ × List ℚ :=
  if l.length % 2 = 1 then (l.take (l.length / 2), l.drop (l.length / 2 + 1))
  else (l.take (l.length / 2), l.drop (l.length / 2))

/-- Modelled from the spec: library `stats.Midhinge` = (Q1 + Q3) / 2;
fails on empty input. -/
def statsMidhinge (xs : List ℚ) : Option ℚ :=
  if xs = [] then none else
    let s := xs.mergeSort (· ≤ ·)
    let h := halves s
    some ((medianSorted h.1 + medianSorted h.2) / 2)

/-- Modelled from the spec: library `stats.Trimean` = (Q1 + 2·Q2 + Q3) / 4;
fails on empty input. -/
def statsTrimean (xs : List ℚ) : Option ℚ :=
  if xs = [] then none else
    let s := xs.mergeSort (· ≤ ·)
    let h := halves s
    some ((medianSorted h.1 + 2 * medianSorted s + medianSorted h.2) / 4)

/-- `defaultAggregator = "Sum"`. -/
def defaultAggregator : String := "Sum"

/-- `defaultValueField = "normed"`. -/
def defaultValueField : String := "normed"

/-- The `aggFunctions` map literal: statistic name to statistic function. -/
def aggFunctions : List (String × (List ℚ → Option ℚ)) :=
  [("Sum", statsSum), ("Mean", statsMean), ("Median", statsMedian),
   ("Midhinge", statsMidhinge), ("Trimean", statsTrimean)]

/-! ### Gather filter (span assembler) -/

/-- `GatherConfig`: the TOML configuration of the gather filter. -/
structure GatherConfig where
  Disabled : Bool
  SpanWidth : Int
  Statistic : String
  ValueField : String
  LastDate : String
deriving DecidableEq, Repr

/-- `gatherFilter.getAggregator`: empty or unrecognized statistic name falls
back to the default ("Sum").  The Go code indexes `aggFunctions` with the
always-present default key; `.getD statsSum` makes that lookup total. -/
def getAggregator (cfg : GatherConfig) : List ℚ → Option ℚ :=
  if cfg.Statistic = "" then (getEntry defaultAggregator aggFunctions).getD statsSum
  else match getEntry cfg.Statistic aggFunctions with
    | some f => f
    | none => (getEntry defaultAggregator aggFunctions).getD statsSum

/-- `gatherFilter.Init`.  `time.Now()` and `time.Parse(time.RFC3339, ·)` are
host/stdlib externals, passed in as `nowNs` and `parseRFC3339`.  On success
it returns the resolved last date (`none` when the stage is disabled and
Init returns before resolving anything). -/
def gatherInit (nowNs : Int) (parseRFC3339 : String → Option Int)
    (cfg : GatherConfig) : Except String (Option Int) :=
  if cfg.Disabled then .ok none
  else if cfg.SpanWidth ≤ 0 then .error "span_width must be greater than zero."
  else if cfg.LastDate = "today" then .ok (some nowNs)
  else if cfg.LastDate = "yesterday" then .ok (some (nowNs - 24 * 3600 * nsPerSecond))
  else match parseRFC3339 cfg.LastDate with
    | some t => .ok (some t)
    | none => .error "parse error"

/-- The runtime pieces of `gatherFilter` that `Connect` and the flush
operations read: span width (seconds), value-field name, resolved last
date (ns), and the selected aggregator. -/
structure GatherRt where
  SpanWidth : Int
  ValueField : String
  lastDate : Int
  aggregator : List ℚ → Option ℚ

/-- The `spanCache`: per-series in-progress spans and per-series last-seen
times (`nows`). -/
structure GatherState where
  spans : List (String × Span)
  nows : List (String × Int)
deriving DecidableEq, Repr

/-- The empty cache built by `Init`. -/
def initGatherState : GatherState := ⟨[], []⟩

/-- `gatherFilter.getRulingValue`: reflect the configured value field out of
the ruling; absent field is an error (`none`). -/
def getRulingValue (cfg : GatherRt) (r : Ruling) : Option ℚ :=
  getEntry cfg.ValueField r.Fields

/-- `gatherFilter.SpanExpired`: `willExpireAt = span.End + SpanWidth` seconds;
expired if `now` is after that, or if `willExpireAt` is at or after the
configured last date. -/
def SpanExpired (cfg : GatherRt) (s : Span) (now : Int) : Bool :=
  let willExpireAt := s.End + cfg.SpanWidth * nsPerSecond
  (willExpireAt < now) || (willExpireAt = cfg.lastDate) || (cfg.lastDate < willExpireAt)

/-- Modelled from the spec: `span.CalcScore(aggregator)` applies the
configured aggregate statistic to the magnitude sequence and stamps the
score; the statistic's error propagates. -/
def CalcScore (agg : List ℚ → Option ℚ) (s : Span) : Option Span :=
  match agg s.Values with
  | some sc => some { s with Score := sc }
  | none => none

/-- `gatherFilter.flushSpan`: stamp `Duration = End - Start`, compute the
score; on statistic failure log and return without emitting, otherwise emit
the finalized span. -/
def flushSpan (cfg : GatherRt) (s : Span) : List Span :=
  let s := { s with Duration := s.End - s.Start }
  match CalcScore cfg.aggregator s with
  | some s' => [s']
  | none => []

/-- `gatherFilter.FlushSpan`: `flushSpan`, then remove the series' cache
entry (span and last-seen time) unconditionally. -/
def FlushSpan (cfg : GatherRt) (s : Span) (st : GatherState) :
    GatherState × List Span :=
  (⟨delEntry s.Series st.spans, delEntry s.Series st.nows⟩, flushSpan cfg s)

/-- One iteration of the loop in `gatherFilter.Connect` for one ruling:
record `now`, extract the magnitude (skip on failure), then the four-way
case split on (active span?, anomalous?). -/
def gatherStep (cfg : GatherRt) (st : GatherState) (r : Ruling) :
    GatherState × List Span :=
  let thisSeries := r.Window.Series
  let now := r.Window.End
  let st : GatherState := { st with nows := setEntry thisSeries now st.nows }
  match getRulingValue cfg r with
  | none => (st, [])
  | some value =>
    match getEntry thisSeries st.spans with
    | some s =>
      if r.Anomalous then
        if (0 ≤ s.Values.headD 0 ∧ 0 ≤ value) ∨ (s.Values.headD 0 < 0 ∧ value < 0) then
          let s' := { s with Values := s.Values ++ [value], End := now }
          ({ st with spans := setEntry thisSeries s' st.spans }, [])
        else
          let (st', out) := FlushSpan cfg s st
          let ns : Span := { Series := thisSeries, Values := [value],
                             Start := r.Window.Start, End := r.Window.End,
                             Passthrough := r.Window.Passthrough }
          ({ st' with spans := setEntry thisSeries ns st'.spans }, out)
      else
        if SpanExpired cfg s now then FlushSpan cfg s st
        else
          let s' := { s with Values := s.Values ++ [value] }
          ({ st with spans := setEntry thisSeries s' st.spans }, [])
    | none =>
      if r.Anomalous then
        let ns : Span := { Series := thisSeries, Values := [value],
                           Start := r.Window.Start, End := r.Window.End,
                           Passthrough := r.Window.Passthrough }
        ({ st with spans := setEntry thisSeries ns st.spans }, [])
      else (st, [])

/-- `gatherFilter.Connect`: the streaming loop over the ruling channel,
emissions collected in order. -/
def gatherConnect (cfg : GatherRt) (st : GatherState) :
    List Ruling → GatherState × List Span
  | [] => (st, [])
  | r :: rs =>
    let p := gatherStep cfg st r
    let q := gatherConnect cfg p.1 rs
    (q.1, p.2 ++ q.2)

/-- `gatherFilter.FlushExpiredSpans`: sweep the cache and flush every span
expired at the supplied `now`. -/
def FlushExpiredSpans (cfg : GatherRt) (now : Int) (st : GatherState) :
    GatherState × List Span :=
  st.spans.foldl
    (fun acc p =>
      if SpanExpired cfg p.2 now then
        let q := FlushSpan cfg p.2 acc.1
        (q.1, acc.2 ++ q.2)
      else acc)
    (st, [])

/-! ### Window filter (tumbling-window aggregator) -/

/-- `WindowConfig`: window width in seconds; `Init` rejects widths ≤ 0. -/
structure WindowConfig where
  WindowWidth : Int
deriving DecidableEq, Repr

/-- `WindowFilter.Init`. -/
def windowInit (cfg : WindowConfig) : Except String (List (String × Window)) :=
  if cfg.WindowWidth ≤ 0 then .error "window_width setting must be greater than zero."
  else .ok []

/-- One iteration of the loop in `WindowFilter.Connect` for one metric:
create a fresh accumulator on first sight of the series, flush when the
accumulator's age in whole seconds reaches the window width (the flushed
window's end is the accumulated end plus the window width), then absorb the
metric into the (possibly reset) accumulator. -/
def windowStep (cfg : WindowConfig) (st : List (String × Window)) (m : Metric) :
    List (String × Window) × List Window :=
  let w : Window :=
    match getEntry m.Series st with
    | some w => w
    | none => { Series := m.Series, Start := m.Timestamp, End := 0, Value := 0,
                Passthrough := m.Passthrough }
  let windowAge := m.Timestamp - w.Start
  let p : Window × List Window :=
    if cfg.WindowWidth ≤ durSeconds windowAge then
      let flushed := { w with End := w.End + cfg.WindowWidth * nsPerSecond }
      -- `flushWindow` resets `*window` to the zero Window carrying series and
      -- passthrough; back in `Connect` the start becomes this metric's timestamp.
      ({ Series := w.Series, Start := m.Timestamp, End := 0, Value := 0,
         Passthrough := w.Passthrough }, [flushed])
    else (w, [])
  let w' := { p.1 with Value := p.1.Value + m.Value, End := m.Timestamp }
  (setEntry m.Series w' st, p.2)

/-- `WindowFilter.Connect`: the streaming loop over the metric channel,
emissions collected in order. -/
def windowConnect (cfg : WindowConfig) (st : List (String × Window)) :
    List Metric → List (String × Window) × List Window
  | [] => (st, [])
  | m :: ms =>
    let p := windowStep cfg st m
    let q := windowConnect cfg p.1 ms
    (q.1, p.2 ++ q.2)

/-! ### Bin filter (bin aggregator) -/

/-- `BinConfig`: bin width in seconds; `Init` rejects widths ≤ 0. -/
structure BinConfig where
  BinWidth : Int
deriving DecidableEq, Repr

/-- `BinFilter.Init`. -/
def binInit (cfg : BinConfig) : Except String (List (Int × Bin)) :=
  if cfg.BinWidth ≤ 0 then .error "bin_width setting must be greater than zero."
  else .ok []

/-- The loop of `BinFilter.spanToBins`: collect bin starts from `now`
stepping by `w` while the bin start does not exceed `endT`.  `Init`
guarantees `0 < w`; the guard makes the recursion well founded. -/
def binsFrom (w endT now : Int) : List Int :=
  if h : 0 < w ∧ now ≤ endT then now :: binsFrom w endT (now + w) else []
termination_by (endT + w - now).toNat
decreasing_by
  rcases h with ⟨hw, hle⟩
  omega

/-- `BinFilter.spanToBins`: bin starts covering `[span.Start, span.End]`,
beginning at `span.Start` truncated to the bin grid. -/
def spanToBins (cfg : BinConfig) (s : Span) : List Int :=
  let binWidth := cfg.BinWidth * nsPerSecond
  binsFrom binWidth s.End (truncateTime s.Start binWidth)

/-- One touch in the inner loop of `BinFilter.Connect`: look up or create
the bin for `binTime`, increment its count, append the contributing series,
store it back, and emit the current snapshot. -/
def binTouch (cfg : BinConfig) (series : String)
    (acc : List (Int × Bin) × List Bin) (binTime : Int) :
    List (Int × Bin) × List Bin :=
  let binWidth := cfg.BinWidth * nsPerSecond
  let b : Bin :=
    match getEntryT binTime acc.1 with
    | some b => b
    | none => { Start := binTime, End := binTime + binWidth }
  let b' := { b with Count := b.Count + 1, Entries := b.Entries ++ [series] }
  (setEntryT binTime b' acc.1, acc.2 ++ [b'])

/-- The body of `BinFilter.Connect` for one span: one `binTouch` per bin
time the span covers. -/
def binStep (cfg : BinConfig) (st : List (Int × Bin)) (s : Span) :
    List (Int × Bin) × List Bin :=
  (spanToBins cfg s).foldl (binTouch cfg s.Series) (st, [])

/-- `BinFilter.Connect`: the streaming loop over the span channel,
emissions collected in order. -/
def binConnect (cfg : BinConfig) (st : List (Int × Bin)) :
    List Span → List (Int × Bin) × List Bin
  | [] => (st, [])
  | s :: ss =>
    let p := binStep cfg st s
    let q := binConnect cfg p.1 ss
    (q.1, p.2 ++ q.2)

/-! ### Run descriptors

Closed forms of what a run of inputs does to one accumulator, used to state
the streaming claims. -/

/-- The magnitude `getRulingValue` extracts from a ruling (its default is
never used under the `isSome` hypotheses of the theorems below). -/
def rulingMag (cfg : GatherRt) (r : Ruling) : ℚ := (getRulingValue cfg r).getD 0

/-- What a run of same-sign anomalous rulings does to an in-progress span:
each ruling appends its magnitude and extends the end to its window's end. -/
def spanAbsorb (cfg : GatherRt) (s : Span) : List Ruling → Span
  | [] => s
  | r :: rs =>
    spanAbsorb cfg { s with Values := s.Values ++ [rulingMag cfg r], End := r.Window.End } rs

/-- What a run of in-width metrics does to a window accumulator: each metric
adds its value to the running sum and moves the end to its timestamp. -/
def accAbsorb (w : Window) : List Metric → Window
  | [] => w
  | m :: ms => accAbsorb { w with Value := w.Value + m.Value, End := m.Timestamp } ms

/-- Invariant of a stored bin: nonnegative count equal to the length of the
contributor list. -/
def binStored (b : Bin) : Prop := 0 ≤ b.Count ∧ b.Count = b.Entries.length

/-- Invariant of an emitted bin snapshot: count at least one and equal to
the length of the contributor list. -/
def binEmitted (b : Bin) : Prop := 1 ≤ b.Count ∧ b.Count = b.Entries.length

/-! ### Helper lemmas about the association-list maps -/

theorem getEntry_setEntry_self (k : String) (v : α) (l : List (String × α)) :
    getEntry k (setEntry k v l) = some v := by
  induction l with
  | nil => simp [setEntry, getEntry]
  | cons p rest ih =>
    obtain ⟨k', v'⟩ := p
    by_cases h : k = k'
    · simp [setEntry, getEntry, h]
    · simp [setEntry, getEntry, h, ih]

theorem setEntry_setEntry (k : String) (v w : α) (l : List (String × α)) :
    setEntry k v (setEntry k w l) = setEntry k v l := by
  induction l with
  | nil => simp [setEntry]
  | cons p rest ih =>
    obtain ⟨k', v'⟩ := p
    by_cases h : k = k'
    · simp [setEntry, h]
    · simp [setEntry, h, ih]

theorem getEntryT_mem {k : Int} {v : α} {l : List (Int × α)}
    (h : getEntryT k l = some v) : (k, v) ∈ l := by
  induction l with
  | nil => simp [getEntryT] at h
  | cons p rest ih =>
    obtain ⟨k', v'⟩ := p
    by_cases hk : k = k'
    · simp [getEntryT, hk] at h
      simp [hk, h]
    · simp [getEntryT, hk] at h
      exact List.mem_cons_of_mem _ (ih h)

theorem mem_setEntryT {p : Int × α} {k : Int} {v : α} {l : List (Int × α)}
    (h : p ∈ setEntryT k v l) : p = (k, v) ∨ p ∈ l := by
  induction l with
  | nil => simp [setEntryT] at h; simp [h]
  | cons q rest ih =>
    obtain ⟨k', v'⟩ := q
    by_cases hk : k = k'
    · simp [setEntryT, hk] at h
      rcases h with h | h
      · left; simp [h, hk]
      · right; exact List.mem_cons_of_mem _ h
    · simp [setEntryT, hk] at h
      rcases h with h | h
      · right; simp [h]
      · rcases ih h with h' | h'
        · left; exact h'
        · right; exact List.mem_cons_of_mem _ h'

theorem headD_append_of_ne_nil {l l' : List α} (d : α) (h : l ≠ []) :
    (l ++ l').headD d = l.headD d := by
  cases l with
  | nil => exact absurd rfl h
  | cons a t => simp

/-! ### Claim theorems -/

/-- Claim C3: the expiry test is monotonic in `now`: if a span is expired at
`t` then it is expired at every later `t'`. -/
theorem spanExpired_monotone (cfg : GatherRt) (s : Span) (t t' : Int)
    (h : SpanExpired cfg s t = true) (hlt : t < t') :
    SpanExpired cfg s t' = true := by
  unfold SpanExpired at h ⊢
  simp only [Bool.or_eq_true, decide_eq_true_eq] at h ⊢
  omega

/-- Witness for C3 at a concrete span and pair of times. -/
theorem spanExpired_monotone_witness :
    SpanExpired ⟨1, "v", 100, statsSum⟩
      { Series := "A", Values := [2], Start := 0, End := 3, Passthrough := "p" }
      1500000000 = true ∧
    SpanExpired ⟨1, "v", 100, statsSum⟩
      { Series := "A", Values := [2], Start := 0, End := 3, Passthrough := "p" }
      2500000000 = true :=
  ⟨by decide,
   spanExpired_monotone ⟨1, "v", 100, statsSum⟩
     { Series := "A", Values := [2], Start := 0, End := 3, Passthrough := "p" }
     1500000000 2500000000 (by decide) (by decide)⟩

/-- Claim C5: a non-anomalous ruling on a series with a non-expired active
span only appends the magnitude to the span's magnitude sequence; every
other span field (in particular `End`, hence `Start`, `Series`,
`Passthrough`) is untouched, nothing is emitted, and the span stays cached. -/
theorem nonAnomalous_notExpired_appends_only (cfg : GatherRt) (st : GatherState)
    (r : Ruling) (v : ℚ) (s : Span)
    (hval : getRulingValue cfg r = some v)
    (hanom : r.Anomalous = false)
    (hcache : getEntry r.Window.Series st.spans = some s)
    (hexp : SpanExpired cfg s r.Window.End = false) :
    gatherStep cfg st r =
      ({ spans := setEntry r.Window.Series { s with Values := s.Values ++ [v] } st.spans,
         nows := setEntry r.Window.Series r.Window.End st.nows }, []) := by
  unfold gatherStep
  simp [hval, hcache, hanom, hexp]

/-- Witness for C5 at a concrete state and ruling. -/
theorem nonAnomalous_notExpired_appends_only_witness :
    getRulingValue ⟨10, "v", 100000000000, statsSum⟩
        ⟨⟨"A", 20, 30, 7, "p"⟩, false, [("v", 4)]⟩ = some 4 ∧
    SpanExpired ⟨10, "v", 100000000000, statsSum⟩
        { Series := "A", Values := [2], Start := 5, End := 25, Passthrough := "p" } 30 = false ∧
    gatherStep ⟨10, "v", 100000000000, statsSum⟩
        ⟨[("A", { Series := "A", Values := [2], Start := 5, End := 25, Passthrough := "p" })],
         [("A", 25)]⟩
        ⟨⟨"A", 20, 30, 7, "p"⟩, false, [("v", 4)]⟩ =
      (⟨[("A", { Series := "A", Values := [2, 4], Start := 5, End := 25, Passthrough := "p" })],
        [("A", 30)]⟩, []) := by
  refine ⟨by decide, by decide, ?_⟩
  have h := nonAnomalous_notExpired_appends_only ⟨10, "v", 100000000000, statsSum⟩
    ⟨[("A", { Series := "A", Values := [2], Start := 5, End := 25, Passthrough := "p" })],
     [("A", 25)]⟩
    ⟨⟨"A", 20, 30, 7, "p"⟩, false, [("v", 4)]⟩ 4
    { Series := "A", Values := [2], Start := 5, End := 25, Passthrough := "p" }
    (by decide) (by decide) (by decide) (by decide)
  rw [h]
  decide

/-- Claim C6: when the aggregate statistic fails on the span's magnitude
sequence at flush time, the span is discarded (nothing is emitted) yet the
series' cache entry — both the in-progress span and the last-seen time —
is still removed. -/
theorem statFailure_discards_but_clears_cache (cfg : GatherRt) (st : GatherState)
    (s : Span) (hfail : cfg.aggregator s.Values = none) :
    FlushSpan cfg s st =
      (⟨delEntry s.Series st.spans, delEntry s.Series st.nows⟩, []) := by
  unfold FlushSpan flushSpan CalcScore
  simp [hfail]

/-- Witness for C6: a span whose magnitude sequence makes the (sum)
aggregator fail; the cache loses both entries and nothing is emitted. -/
theorem statFailure_discards_but_clears_cache_witness :
    (GatherRt.aggregator ⟨10, "v", 100, statsSum⟩) [] = none ∧
    FlushSpan ⟨10, "v", 100, statsSum⟩
      { Series := "A", Values := [], Start := 5, End := 25, Passthrough := "p" }
      ⟨[("A", { Series := "A", Values := [], Start := 5, End := 25, Passthrough := "p" })],
       [("A", 25)]⟩ = (⟨[], []⟩, []) := by
  refine ⟨by decide, ?_⟩
  have h := statFailure_discards_but_clears_cache ⟨10, "v", 100, statsSum⟩
    ⟨[("A", { Series := "A", Values := [], Start := 5, End := 25, Passthrough := "p" })],
     [("A", 25)]⟩
    { Series := "A", Values := [], Start := 5, End := 25, Passthrough := "p" }
    (by decide)
  rw [h]
  decide

/-- Counterexample to claim C7 as stated: the loop records the series' "now"
(`spanCache.nows`) **before** attempting magnitude extraction, so a ruling
whose configured value field is absent does change state: here the failing
ruling creates a `nows` entry for series "A". -/
theorem fieldFailure_changes_nows :
    getRulingValue ⟨10, "v", 100, statsSum⟩ ⟨⟨"A", 20, 30, 7, "p"⟩, true, []⟩ = none ∧
    (gatherStep ⟨10, "v", 100, statsSum⟩ initGatherState
        ⟨⟨"A", 20, 30, 7, "p"⟩, true, []⟩).1 ≠ initGatherState := by
  decide

/-- Claim C7 amended: a ruling on which extraction of the configured value
field fails is logged and skipped with no span state change — no span is
created, modified or flushed for any series and nothing is emitted — but
the series' last-seen time is still recorded (the `nows` update precedes
the extraction). -/
theorem fieldFailure_skips_ruling (cfg : GatherRt) (st : GatherState) (r : Ruling)
    (hval : getRulingValue cfg r = none) :
    gatherStep cfg st r =
      ({ st with nows := setEntry r.Window.Series r.Window.End st.nows }, []) := by
  unfold gatherStep
  simp [hval]

/-- Witness for the amended C7 at a concrete ruling with a missing field. -/
theorem fieldFailure_skips_ruling_witness :
    getRulingValue ⟨10, "v", 100, statsSum⟩ ⟨⟨"A", 20, 30, 7, "p"⟩, true, [("w", 3)]⟩ = none ∧
    gatherStep ⟨10, "v", 100, statsSum⟩
        ⟨[("B", { Series := "B", Values := [1], Start := 0, End := 9, Passthrough := "q" })], []⟩
        ⟨⟨"A", 20, 30, 7, "p"⟩, true, [("w", 3)]⟩ =
      (⟨[("B", { Series := "B", Values := [1], Start := 0, End := 9, Passthrough := "q" })],
        [("A", 30)]⟩, []) := by
  refine ⟨by decide, ?_⟩
  have h := fieldFailure_skips_ruling ⟨10, "v", 100, statsSum⟩
    ⟨[("B", { Series := "B", Values := [1], Start := 0, End := 9, Passthrough := "q" })], []⟩
    ⟨⟨"A", 20, 30, 7, "p"⟩, true, [("w", 3)]⟩ (by decide)
  rw [h]
  decide

/-- Claim C8: aggregate statistic selection — each of the five supported
names selects the correspondingly named statistic function, and an empty or
unrecognized name silently falls back to the sum function. -/
theorem getAggregator_selection (cfg : GatherConfig) :
    (cfg.Statistic = "Sum" → getAggregator cfg = statsSum) ∧
    (cfg.Statistic = "Mean" → getAggregator cfg = statsMean) ∧
    (cfg.Statistic = "Median" → getAggregator cfg = statsMedian) ∧
    (cfg.Statistic = "Midhinge" → getAggregator cfg = statsMidhinge) ∧
    (cfg.Statistic = "Trimean" → getAggregator cfg = statsTrimean) ∧
    (cfg.Statistic = "" → getAggregator cfg = statsSum) ∧
    (cfg.Statistic ∉ ["Sum", "Mean", "Median", "Midhinge", "Trimean"] →
      getAggregator cfg = statsSum) := by
  refine ⟨?_, ?_, ?_, ?_, ?_, ?_, ?_⟩ <;> intro h
  · simp [getAggregator, h, aggFunctions, getEntry, defaultAggregator]
  · simp [getAggregator, h, aggFunctions, getEntry, defaultAggregator]
  · simp [getAggregator, h, aggFunctions, getEntry, defaultAggregator]
  · simp [getAggregator, h, aggFunctions, getEntry, defaultAggregator]
  · simp [getAggregator, h, aggFunctions, getEntry, defaultAggregator]
  · simp [getAggregator, h, aggFunctions, getEntry, defaultAggregator]
  · simp only [List.mem_cons, List.not_mem_nil, or_false, not_or] at h
    obtain ⟨h1, h2, h3, h4, h5⟩ := h
    by_cases he : cfg.Statistic = ""
    · simp [getAggregator, he, aggFunctions, getEntry, defaultAggregator]
    · simp [getAggregator, he, aggFunctions, getEntry, defaultAggregator, h1, h2, h3, h4, h5]

/-- Witness for C8: a recognized name ("Mean") and an unrecognized name
("Bogus") at concrete configurations. -/
theorem getAggregator_selection_witness :
    getAggregator ⟨false, 1, "Mean", "v", "today"⟩ = statsMean ∧
    getAggregator ⟨false, 1, "Bogus", "v", "today"⟩ = statsSum :=
  ⟨(getAggregator_selection ⟨false, 1, "Mean", "v", "today"⟩).2.1 rfl,
   (getAggregator_selection ⟨false, 1, "Bogus", "v", "today"⟩).2.2.2.2.2.2 (by decide)⟩

/-- Claim C9: when the disabled flag is set, `gatherFilter.Init` succeeds
immediately, for every span width (including non-positive ones) and every
last-date string under every possible parse outcome: no validation runs. -/
theorem disabled_init_skips_validation (nowNs : Int) (parseRFC3339 : String → Option Int)
    (cfg : GatherConfig) :
    gatherInit nowNs parseRFC3339 { cfg with Disabled := true } = .ok none := rfl

/-- One `binTouch` preserves the stored-bin invariant and only emits
snapshots satisfying the emitted-bin invariant. -/
theorem binTouch_invariant (cfg : BinConfig) (series : String) (ts : List Int) :
    ∀ (st : List (Int × Bin)) (out : List Bin),
    (∀ p ∈ st, binStored p.2) → (∀ b ∈ out, binEmitted b) →
    (∀ p ∈ (ts.foldl (binTouch cfg series) (st, out)).1, binStored p.2) ∧
    (∀ b ∈ (ts.foldl (binTouch cfg series) (st, out)).2, binEmitted b) := by
  induction ts with
  | nil => intro st out hst hout; exact ⟨hst, hout⟩
  | cons t ts ih =>
    intro st out hst hout
    simp only [List.foldl_cons]
    have hb : binStored (match getEntryT t st with
        | some b => b
        | none => { Start := t, End := t + cfg.BinWidth * nsPerSecond }) := by
      cases hg : getEntryT t st with
      | some b => exact hst _ (getEntryT_mem hg)
      | none => exact ⟨le_refl 0, rfl⟩
    refine ih _ _ ?_ ?_
    · intro p hp
      simp only [binTouch] at hp
      rcases mem_setEntryT hp with h | h
      · subst h
        obtain ⟨h1, h2⟩ := hb
        constructor
        · simpa using by omega
        · simpa using by omega
      · exact hst _ h
    · intro b hb'
      simp only [binTouch, List.mem_append, List.mem_singleton] at hb'
      rcases hb' with h | h
      · exact hout _ h
      · subst h
        obtain ⟨h1, h2⟩ := hb
        constructor
        · simpa using by omega
        · simpa using by omega

/-- Claim C10: starting from a bin state whose stored bins all have count
equal to contributor-list length, every Bin snapshot the BinAggregator
emits satisfies `1 ≤ count` and `count = contributors.length`; each touch
adds one to the count and appends exactly one series identifier, so the
invariant is preserved. -/
theorem bin_snapshot_invariant (cfg : BinConfig) (sps : List Span) :
    ∀ (st : List (Int × Bin)), (∀ p ∈ st, binStored p.2) →
    (∀ b ∈ (binConnect cfg st sps).2, binEmitted b) ∧
    (∀ p ∈ (binConnect cfg st sps).1, binStored p.2) := by
  induction sps with
  | nil => intro st hst; exact ⟨by simp [binConnect], by simpa [binConnect] using hst⟩
  | cons s ss ih =>
    intro st hst
    have hstep := binTouch_invariant cfg s.Series (spanToBins cfg s) st [] hst (by simp)
    have hrest := ih (binStep cfg st s).1 hstep.1
    constructor
    · intro b hb
      simp only [binConnect, List.mem_append] at hb
      rcases hb with h | h
      · exact hstep.2 _ h
      · exact hrest.1 _ h
    · intro p hp
      simp only [binConnect] at hp
      exact hrest.2 _ hp

/-- Witness for C10: one concrete span through the empty bin state; both
emitted snapshots satisfy the invariant. -/
theorem bin_snapshot_invariant_witness :
    (∀ p ∈ ([] : List (Int × Bin)), binStored p.2) ∧
    (∀ b ∈ (binConnect ⟨60⟩ []
        [{ Series := "A", Values := [3], Start := 0, End := 90000000000,
           Passthrough := "p" }]).2, binEmitted b) :=
  ⟨by simp,
   (bin_snapshot_invariant ⟨60⟩
      [{ Series := "A", Values := [3], Start := 0, End := 90000000000,
         Passthrough := "p" }] [] (by simp)).1⟩

theorem cons_map_range (n : ℕ) (a w : Int) :
    a :: (List.range n).map (fun i : ℕ => a + w + w * (i : Int)) =
    (List.range (n + 1)).map (fun i : ℕ => a + w * (i : Int)) := by
  conv_rhs => rw [List.range_succ_eq_map]
  simp only [List.map_cons, Nat.cast_zero, mul_zero, add_zero, List.map_map]
  congr 1
  apply List.map_congr_left
  intro i _
  simp only [Function.comp_apply]
  push_cast
  ring

/-- Closed form of the `spanToBins` loop: for a positive width it produces
the arithmetic progression of bin starts from `now` up to the last one not
exceeding `endT`. -/
theorem binsFrom_eq : ∀ (d : ℕ) (w endT now : Int), 0 < w → now ≤ endT →
    (endT - now).toNat = d →
    binsFrom w endT now =
      (List.range (d / w.toNat + 1)).map (fun i : ℕ => now + w * (i : Int)) := by
  intro d
  induction d using Nat.strong_induction_on with
  | _ d ih =>
    intro w endT now hw hle hd
    rw [binsFrom, dif_pos ⟨hw, hle⟩]
    by_cases h2 : now + w ≤ endT
    · have hd' : (endT - (now + w)).toNat = d - w.toNat := by omega
      have hlt : d - w.toNat < d := by omega
      rw [ih (d - w.toNat) hlt w endT (now + w) hw h2 hd']
      have hdiv : d / w.toNat = (d - w.toNat) / w.toNat + 1 := by
        rw [Nat.div_eq d w.toNat]
        have hc : 0 < w.toNat ∧ w.toNat ≤ d := by omega
        simp [hc]
      rw [hdiv]
      exact cons_map_range _ now w
    · have hneg : ¬ (0 < w ∧ now + w ≤ endT) := by omega
      rw [binsFrom, dif_neg hneg]
      have hz : d / w.toNat = 0 := by
        apply Nat.div_eq_of_lt
        omega
      simp [hz, List.range_succ]

/-- Each `binTouch` emits exactly one snapshot. -/
theorem binTouch_length (cfg : BinConfig) (series : String) (ts : List Int) :
    ∀ (st : List (Int × Bin)) (out : List Bin),
    ((ts.foldl (binTouch cfg series) (st, out)).2).length = out.length + ts.length := by
  induction ts with
  | nil => intro st out; simp
  | cons t ts ih =>
    intro st out
    simp only [List.foldl_cons]
    rw [ih]
    simp [binTouch]
    omega

/-- Claim C4: the BinAggregator touches exactly the bins whose starts run
from `truncate(span.start, binWidth)` in `binWidth` steps up to the last
one not exceeding `span.end` (first conjunct: the touched bin starts are
that arithmetic progression; second: one snapshot is emitted per touch);
in particular a span from 00:00:00 to 00:02:30 with 60-second bins makes
exactly three touches, at bins starting 00:00:00, 00:01:00 and 00:02:00,
each incrementing the count and appending the series. -/
theorem binAggregator_touches (cfg : BinConfig) (s : Span)
    (hw : 0 < cfg.BinWidth) (hse : s.Start ≤ s.End) :
    spanToBins cfg s =
      (List.range ((s.End - truncateTime s.Start (cfg.BinWidth * nsPerSecond)).toNat /
          (cfg.BinWidth * nsPerSecond).toNat + 1)).map
        (fun i : ℕ => truncateTime s.Start (cfg.BinWidth * nsPerSecond) +
          (cfg.BinWidth * nsPerSecond) * (i : Int)) ∧
    (∀ st : List (Int × Bin), ((binStep cfg st s).2).length = (spanToBins cfg s).length) ∧
    binConnect ⟨60⟩ []
        [{ Series := "A", Values := [3], Start := 0, End := 150 * nsPerSecond,
           Passthrough := "p" }] =
      ([(0, ⟨0, 60 * nsPerSecond, 1, ["A"]⟩),
        (60 * nsPerSecond, ⟨60 * nsPerSecond, 120 * nsPerSecond, 1, ["A"]⟩),
        (120 * nsPerSecond, ⟨120 * nsPerSecond, 180 * nsPerSecond, 1, ["A"]⟩)],
       [⟨0, 60 * nsPerSecond, 1, ["A"]⟩,
        ⟨60 * nsPerSecond, 120 * nsPerSecond, 1, ["A"]⟩,
        ⟨120 * nsPerSecond, 180 * nsPerSecond, 1, ["A"]⟩]) := by
  have hbw : 0 < cfg.BinWidth * nsPerSecond := by
    have : (0 : Int) < nsPerSecond := by norm_num [nsPerSecond]
    exact mul_pos hw this
  have hmod : 0 ≤ s.Start.emod (cfg.BinWidth * nsPerSecond) :=
    Int.emod_nonneg _ (ne_of_gt hbw)
  have ht0 : truncateTime s.Start (cfg.BinWidth * nsPerSecond) ≤ s.End := by
    unfold truncateTime
    omega
  refine ⟨?_, ?_, ?_⟩
  · simpa [spanToBins] using
      binsFrom_eq ((s.End - truncateTime s.Start (cfg.BinWidth * nsPerSecond)).toNat)
        (cfg.BinWidth * nsPerSecond) s.End
        (truncateTime s.Start (cfg.BinWidth * nsPerSecond)) hbw ht0 rfl
  · intro st
    simpa [binStep] using binTouch_length cfg s.Series (spanToBins cfg s) st []
  · simp +decide [binConnect, binStep, binTouch, spanToBins, binsFrom, truncateTime,
      nsPerSecond, getEntryT, setEntryT]

/-- Witness for C4 at the concrete 150-second span with 60-second bins. -/
theorem binAggregator_touches_witness :
    (0 : Int) < BinConfig.BinWidth ⟨60⟩ ∧
    Span.Start { Series := "A", Values := [3], Start := 0, End := 150 * nsPerSecond, Passthrough := "p" } ≤
      Span.End { Series := "A", Values := [3], Start := 0, End := 150 * nsPerSecond, Passthrough := "p" } ∧
    spanToBins ⟨60⟩ { Series := "A", Values := [3], Start := 0, End := 150 * nsPerSecond, Passthrough := "p" } =
      (List.range 3).map (fun i : ℕ => 0 + 60 * nsPerSecond * (i : Int)) := by
  refine ⟨by norm_num, by norm_num [nsPerSecond], ?_⟩
  have h := (binAggregator_touches ⟨60⟩
    { Series := "A", Values := [3], Start := 0, End := 150 * nsPerSecond, Passthrough := "p" }
    (by norm_num) (by norm_num [nsPerSecond])).1
  rw [h]
  norm_num [truncateTime, nsPerSecond]
  decide

/-- Re-storing the value already present under a key leaves the map
unchanged. -/
theorem setEntry_eq_of_getEntry {k : String} {v : α} {l : List (String × α)}
    (h : getEntry k l = some v) : setEntry k v l = l := by
  induction l with
  | nil => simp [getEntry] at h
  | cons p rest ih =>
    obtain ⟨k', v'⟩ := p
    by_cases hk : k = k'
    · simp [getEntry, hk] at h
      simp [setEntry, hk, h]
    · simp [getEntry, hk] at h
      simp [setEntry, hk, ih h]

/-- A window accumulator after absorbing a run of metrics: series, start
and passthrough are untouched, the value is the running sum, and the end is
the last absorbed timestamp. -/
theorem accAbsorb_eq (ms : List Metric) : ∀ (w : Window),
    accAbsorb w ms =
      ⟨w.Series, w.Start, (ms.map Metric.Timestamp).getLastD w.End,
       w.Value + (ms.map Metric.Value).sum, w.Passthrough⟩ := by
  induction ms with
  | nil => intro w; simp [accAbsorb]
  | cons m ms ih =>
    intro w
    rw [accAbsorb, ih]
    simp only [List.map_cons, List.sum_cons, List.getLastD_cons]
    simp
    ring

/-- A run of metrics that all stay strictly within one window width of the
accumulator's start is absorbed without any emission. -/
theorem window_run (cfg : WindowConfig) (sr : String) (ms : List Metric) :
    ∀ (st : List (String × Window)) (w : Window),
    getEntry sr st = some w →
    (∀ m ∈ ms, m.Series = sr) →
    (∀ m ∈ ms, durSeconds (m.Timestamp - w.Start) < cfg.WindowWidth) →
    windowConnect cfg st ms = (setEntry sr (accAbsorb w ms) st, []) := by
  induction ms with
  | nil =>
    intro st w hw _ _
    simp [windowConnect, accAbsorb, setEntry_eq_of_getEntry hw]
  | cons m ms ih =>
    intro st w hw hser hin
    have hs : m.Series = sr := hser m (List.mem_cons_self m ms)
    have hlt : ¬ cfg.WindowWidth ≤ durSeconds (m.Timestamp - w.Start) :=
      not_le.mpr (hin m (List.mem_cons_self m ms))
    have hstep : windowStep cfg st m =
        (setEntry sr { w with Value := w.Value + m.Value, End := m.Timestamp } st, []) := by
      unfold windowStep
      rw [hs, hw]
      simp [hlt]
    have htail := ih (setEntry sr { w with Value := w.Value + m.Value, End := m.Timestamp } st)
      { w with Value := w.Value + m.Value, End := m.Timestamp }
      (getEntry_setEntry_self sr _ st)
      (fun x hx => hser x (List.mem_cons_of_mem m hx))
      (fun x hx => by simpa using hin x (List.mem_cons_of_mem m hx))
    simp only [windowConnect, hstep, htail]
    simp [accAbsorb, setEntry_setEntry]

/-- The window filter processes a concatenation by processing the pieces
in sequence. -/
theorem windowConnect_append (cfg : WindowConfig) (xs ys : List Metric) :
    ∀ st : List (String × Window),
    windowConnect cfg st (xs ++ ys) =
      ((windowConnect cfg (windowConnect cfg st xs).1 ys).1,
       (windowConnect cfg st xs).2 ++ (windowConnect cfg (windowConnect cfg st xs).1 ys).2) := by
  induction xs with
  | nil => intro st; simp [windowConnect]
  | cons x xs ih =>
    intro st
    have h := ih (windowStep cfg st x).1
    simp only [List.cons_append, windowConnect]
    simp only [List.append_eq] at h ⊢
    rw [h]
    simp [List.append_assoc]

/-- Claim C2: per series, the WindowAggregator is silent while metrics stay
within one window width (in whole seconds) of the accumulator's start; the
first metric at or beyond the width triggers exactly one emitted Window
whose value is the sum of the metrics absorbed before it, whose end is the
accumulated end plus the window width, and the new accumulator restarts at
the triggering metric's timestamp carrying series and passthrough (with the
triggering metric's value in it). -/
theorem windowAggregator_rollover (cfg : WindowConfig)
    (st : List (String × Window)) (sr : String)
    (m0 : Metric) (rest : List Metric) (mt : Metric)
    (hnone : getEntry sr st = none)
    (hser : ∀ m ∈ m0 :: rest, m.Series = sr)
    (hsert : mt.Series = sr)
    (hin : ∀ m ∈ m0 :: rest, durSeconds (m.Timestamp - m0.Timestamp) < cfg.WindowWidth)
    (htrig : cfg.WindowWidth ≤ durSeconds (mt.Timestamp - m0.Timestamp)) :
    (windowConnect cfg st (m0 :: rest)).2 = [] ∧
    windowConnect cfg st ((m0 :: rest) ++ [mt]) =
      (setEntry sr ⟨sr, mt.Timestamp, mt.Timestamp, mt.Value, m0.Passthrough⟩ st,
       [⟨sr, m0.Timestamp,
         ((m0 :: rest).map Metric.Timestamp).getLastD 0 + cfg.WindowWidth * nsPerSecond,
         ((m0 :: rest).map Metric.Value).sum, m0.Passthrough⟩]) := by
  have hs0 : m0.Series = sr := hser m0 (List.mem_cons_self m0 rest)
  have h00 : durSeconds 0 = 0 := by norm_num [durSeconds]
  have hwpos : 0 < cfg.WindowWidth := by
    have := hin m0 (List.mem_cons_self m0 rest)
    simp only [sub_self, h00] at this
    omega
  have hlt0 : ¬ cfg.WindowWidth ≤ durSeconds 0 := by
    rw [h00]; omega
  -- first metric: fresh accumulator, no flush
  have hstep0 : windowStep cfg st m0 =
      (setEntry sr ⟨sr, m0.Timestamp, m0.Timestamp, m0.Value, m0.Passthrough⟩ st, []) := by
    unfold windowStep
    rw [hs0, hnone]
    simp [hlt0]
  -- the in-width tail is absorbed silently
  have hrun := window_run cfg sr rest
    (setEntry sr ⟨sr, m0.Timestamp, m0.Timestamp, m0.Value, m0.Passthrough⟩ st)
    ⟨sr, m0.Timestamp, m0.Timestamp, m0.Value, m0.Passthrough⟩
    (getEntry_setEntry_self sr _ st)
    (fun x hx => hser x (List.mem_cons_of_mem m0 hx))
    (fun x hx => by simpa using hin x (List.mem_cons_of_mem m0 hx))
  have hrunConn : windowConnect cfg st (m0 :: rest) =
      (setEntry sr (accAbsorb ⟨sr, m0.Timestamp, m0.Timestamp, m0.Value, m0.Passthrough⟩ rest) st, []) := by
    simp only [windowConnect, hstep0, hrun]
    simp [setEntry_setEntry]
  have hacc : accAbsorb ⟨sr, m0.Timestamp, m0.Timestamp, m0.Value, m0.Passthrough⟩ rest =
      ⟨sr, m0.Timestamp, (rest.map Metric.Timestamp).getLastD m0.Timestamp,
       m0.Value + (rest.map Metric.Value).sum, m0.Passthrough⟩ :=
    accAbsorb_eq rest _
  rw [hacc] at hrunConn
  refine ⟨by rw [hrunConn], ?_⟩
  rw [windowConnect_append, hrunConn]
  simp only [windowConnect, windowStep]
  rw [hsert]
  simp only [getEntry_setEntry_self]
  simp [htrig, setEntry_setEntry, List.getLastD_cons, -List.getLastD_eq_getLast?]

/-- Witness for C2: three metrics of series "A" at t = 0s, 10s, 20s
(values 1,1,1) with window width 30s stay silent; the metric at t = 35s
triggers the window [0s, 50s) with value 3, and the new accumulator starts
at 35s with the trigger's value. -/
theorem windowAggregator_rollover_witness :
    getEntry "A" ([] : List (String × Window)) = none ∧
    (∀ m ∈ [(⟨"A", 0, 1, "p"⟩ : Metric), ⟨"A", 10000000000, 1, "p"⟩, ⟨"A", 20000000000, 1, "p"⟩],
      m.Series = "A") ∧
    Metric.Series ⟨"A", 35000000000, 5, "p"⟩ = "A" ∧
    (∀ m ∈ [(⟨"A", 0, 1, "p"⟩ : Metric), ⟨"A", 10000000000, 1, "p"⟩, ⟨"A", 20000000000, 1, "p"⟩],
      durSeconds (m.Timestamp - 0) < 30) ∧
    (30 : Int) ≤ durSeconds (35000000000 - 0) ∧
    ((windowConnect ⟨30⟩ []
        [(⟨"A", 0, 1, "p"⟩ : Metric), ⟨"A", 10000000000, 1, "p"⟩, ⟨"A", 20000000000, 1, "p"⟩]).2 = [] ∧
     windowConnect ⟨30⟩ []
        ([(⟨"A", 0, 1, "p"⟩ : Metric), ⟨"A", 10000000000, 1, "p"⟩, ⟨"A", 20000000000, 1, "p"⟩] ++
          [⟨"A", 35000000000, 5, "p"⟩]) =
       ([("A", ⟨"A", 35000000000, 35000000000, 5, "p"⟩)],
        [⟨"A", 0, 50000000000, 3, "p"⟩])) := by
  refine ⟨by decide, by decide, by decide, by decide, by decide, ?_⟩
  have h := windowAggregator_rollover ⟨30⟩ [] "A" ⟨"A", 0, 1, "p"⟩
    [⟨"A", 10000000000, 1, "p"⟩, ⟨"A", 20000000000, 1, "p"⟩] ⟨"A", 35000000000, 5, "p"⟩
    (by decide) (by decide) (by decide) (by decide) (by decide)
  obtain ⟨h1, h2⟩ := h
  refine ⟨h1, ?_⟩
  rw [h2]
  simp only [setEntry, List.getLastD_cons, List.getLastD_nil, List.map_cons, List.map_nil,
    List.sum_cons, List.sum_nil, nsPerSecond]
  norm_num

/-- A span after absorbing a run of same-sign anomalous rulings: the
magnitudes are appended in arrival order and the end is the last window's
end; series, start, duration, score and passthrough are untouched. -/
theorem spanAbsorb_eq (cfg : GatherRt) (rs : List Ruling) : ∀ (s : Span),
    spanAbsorb cfg s rs =
      ⟨s.Series, s.Values ++ rs.map (rulingMag cfg), s.Start,
       (rs.map (fun r => r.Window.End)).getLastD s.End, s.Duration, s.Score,
       s.Passthrough⟩ := by
  induction rs with
  | nil => intro s; simp [spanAbsorb]
  | cons r rs ih =>
    intro s
    rw [spanAbsorb, ih]
    simp [List.getLastD_cons, -List.getLastD_eq_getLast?]

/-- The gather filter processes a concatenation by processing the pieces in
sequence. -/
theorem gatherConnect_append (cfg : GatherRt) (xs ys : List Ruling) :
    ∀ st : GatherState,
    gatherConnect cfg st (xs ++ ys) =
      ((gatherConnect cfg (gatherConnect cfg st xs).1 ys).1,
       (gatherConnect cfg st xs).2 ++ (gatherConnect cfg (gatherConnect cfg st xs).1 ys).2) := by
  induction xs with
  | nil => intro st; simp [gatherConnect]
  | cons x xs ih =>
    intro st
    have h := ih (gatherStep cfg st x).1
    simp only [List.cons_append, gatherConnect]
    simp only [List.append_eq] at h ⊢
    rw [h]
    simp [List.append_assoc]

/-- Two magnitudes in the same sign class (both nonnegative or both
negative) satisfy the merge condition of `gatherFilter.Connect`. -/
theorem sign_match {a v : ℚ} {b : Bool}
    (h1 : decide (0 ≤ a) = b) (h2 : decide (0 ≤ v) = b) :
    (0 ≤ a ∧ 0 ≤ v) ∨ (a < 0 ∧ v < 0) := by
  cases b
  · simp only [decide_eq_false_iff_not, not_le] at h1 h2
    exact Or.inr ⟨h1, h2⟩
  · simp only [decide_eq_true_eq] at h1 h2
    exact Or.inl ⟨h1, h2⟩

/-- Two magnitudes in opposite sign classes fail the merge condition of
`gatherFilter.Connect`. -/
theorem sign_mismatch {a v : ℚ} {b : Bool}
    (h1 : decide (0 ≤ a) = b) (h2 : decide (0 ≤ v) = !b) :
    ¬ ((0 ≤ a ∧ 0 ≤ v) ∨ (a < 0 ∧ v < 0)) := by
  cases b
  · simp only [decide_eq_false_iff_not, not_le, Bool.not_false, decide_eq_true_eq] at h1 h2
    rintro (⟨ha, _⟩ | ⟨_, hv⟩)
    · exact absurd ha (not_le.mpr h1)
    · exact absurd h2 (not_le.mpr hv)
  · simp only [decide_eq_true_eq, Bool.not_true, decide_eq_false_iff_not, not_le] at h1 h2
    rintro (⟨_, hv⟩ | ⟨ha, _⟩)
    · exact absurd hv (not_le.mpr h2)
    · exact absurd ha (not_lt.mpr h1)

/-- Folding per-ruling `nows` updates over a one-entry map keeps one entry,
holding the last window end. -/
theorem foldl_setEntry_single (sr : String) (rs : List Ruling) : ∀ y : Int,
    rs.foldl (fun n r => setEntry sr r.Window.End n) [(sr, y)] =
      [(sr, (rs.map (fun r => r.Window.End)).getLastD y)] := by
  induction rs with
  | nil => intro y; simp
  | cons r rs ih =>
    intro y
    simp only [List.foldl_cons, List.map_cons, List.getLastD_cons]
    rw [show setEntry sr r.Window.End [(sr, y)] = [(sr, r.Window.End)] by simp [setEntry]]
    exact ih r.Window.End

/-- A run of anomalous rulings whose magnitudes share the sign class of the
cached span's first magnitude is merged into that span — one magnitude
appended and the end extended per ruling — with no emission. -/
theorem gather_run (cfg : GatherRt) (sr : String) (rs : List Ruling) :
    ∀ (st : GatherState) (s : Span),
    getEntry sr st.spans = some s →
    s.Values ≠ [] →
    (∀ r ∈ rs, r.Window.Series = sr) →
    (∀ r ∈ rs, r.Anomalous = true) →
    (∀ r ∈ rs, (getRulingValue cfg r).isSome = true) →
    (∀ r ∈ rs, (0 ≤ s.Values.headD 0 ∧ 0 ≤ rulingMag cfg r) ∨
               (s.Values.headD 0 < 0 ∧ rulingMag cfg r < 0)) →
    gatherConnect cfg st rs =
      (⟨setEntry sr (spanAbsorb cfg s rs) st.spans,
        rs.foldl (fun n r => setEntry sr r.Window.End n) st.nows⟩, []) := by
  induction rs with
  | nil =>
    intro st s hcache _ _ _ _ _
    simp [gatherConnect, spanAbsorb, setEntry_eq_of_getEntry hcache]
  | cons r rs ih =>
    intro st s hcache hne hser hanom hval hsign
    have hsr : r.Window.Series = sr := hser r (List.mem_cons_self r rs)
    have hv : getRulingValue cfg r = some (rulingMag cfg r) := by
      cases hg : getRulingValue cfg r with
      | none =>
        have := hval r (List.mem_cons_self r rs)
        rw [hg] at this
        simp at this
      | some v => simp [rulingMag, hg]
    have hanomr : r.Anomalous = true := hanom r (List.mem_cons_self r rs)
    have hcondT := eq_true (hsign r (List.mem_cons_self r rs))
    have hstep : gatherStep cfg st r =
        (⟨setEntry sr { s with Values := s.Values ++ [rulingMag cfg r], End := r.Window.End } st.spans,
          setEntry sr r.Window.End st.nows⟩, []) := by
      unfold gatherStep
      rw [hv]
      simp only [List.headD_eq_head?] at hcondT
      simp [hsr, hcache, hanomr, hcondT]
    have hheadD : ({ s with Values := s.Values ++ [rulingMag cfg r], End := r.Window.End } : Span).Values.headD 0 = s.Values.headD 0 :=
      headD_append_of_ne_nil 0 hne
    have htail := ih
      ⟨setEntry sr { s with Values := s.Values ++ [rulingMag cfg r], End := r.Window.End } st.spans,
       setEntry sr r.Window.End st.nows⟩
      { s with Values := s.Values ++ [rulingMag cfg r], End := r.Window.End }
      (getEntry_setEntry_self sr _ st.spans)
      (by simp)
      (fun x hx => hser x (List.mem_cons_of_mem r hx))
      (fun x hx => hanom x (List.mem_cons_of_mem r hx))
      (fun x hx => hval x (List.mem_cons_of_mem r hx))
      (fun x hx => by
        rw [hheadD]
        exact hsign x (List.mem_cons_of_mem r hx))
    simp only [gatherConnect, hstep, htail]
    rw [spanAbsorb]
    simp [setEntry_setEntry, List.foldl_cons]

/-- When extraction succeeds, the extracted value is `rulingMag`. -/
theorem rulingMag_of_isSome {cfg : GatherRt} {r : Ruling}
    (h : (getRulingValue cfg r).isSome = true) :
    getRulingValue cfg r = some (rulingMag cfg r) := by
  cases hg : getRulingValue cfg r with
  | none => rw [hg] at h; simp at h
  | some v => simp [rulingMag, hg]

/-- Claim C1: starting with no active span, a run `r0 :: rs1` of anomalous
rulings whose magnitudes all share one sign class (`b`) is merged into
exactly one in-progress span carrying exactly those magnitudes in arrival
order, with the span's end extended to each window's end and nothing
emitted (first conjunct); an anomalous ruling `r1` of the opposite sign
class flushes that span and starts a brand-new span from `r1`, so after the
opposite-sign run `r1 :: rs2` and an expiry sweep the two spans are emitted
in order, the first carrying exactly the first run's magnitudes and the
second exactly the second run's (second conjunct). -/
theorem spanAssembler_sign_runs (cfg : GatherRt) (sr : String)
    (r0 : Ruling) (rs1 : List Ruling) (r1 : Ruling) (rs2 : List Ruling)
    (b : Bool) (sc1 sc2 : ℚ) (T : Int)
    (hser1 : ∀ r ∈ r0 :: rs1, r.Window.Series = sr)
    (hser2 : ∀ r ∈ r1 :: rs2, r.Window.Series = sr)
    (hanom1 : ∀ r ∈ r0 :: rs1, r.Anomalous = true)
    (hanom2 : ∀ r ∈ r1 :: rs2, r.Anomalous = true)
    (hval1 : ∀ r ∈ r0 :: rs1, (getRulingValue cfg r).isSome = true)
    (hval2 : ∀ r ∈ r1 :: rs2, (getRulingValue cfg r).isSome = true)
    (hcls1 : ∀ r ∈ r0 :: rs1, decide (0 ≤ rulingMag cfg r) = b)
    (hcls2 : ∀ r ∈ r1 :: rs2, decide (0 ≤ rulingMag cfg r) = !b)
    (hagg1 : cfg.aggregator ((r0 :: rs1).map (rulingMag cfg)) = some sc1)
    (hagg2 : cfg.aggregator ((r1 :: rs2).map (rulingMag cfg)) = some sc2)
    (hT : ((r1 :: rs2).map (fun r => r.Window.End)).getLastD 0 + cfg.SpanWidth * nsPerSecond < T) :
    gatherConnect cfg initGatherState (r0 :: rs1) =
      (⟨[(sr, ⟨sr, (r0 :: rs1).map (rulingMag cfg), r0.Window.Start,
               ((r0 :: rs1).map (fun r => r.Window.End)).getLastD 0, 0, 0,
               r0.Window.Passthrough⟩)],
         [(sr, ((r0 :: rs1).map (fun r => r.Window.End)).getLastD 0)]⟩, []) ∧
    (gatherConnect cfg initGatherState ((r0 :: rs1) ++ (r1 :: rs2))).2 ++
      (FlushExpiredSpans cfg T
        (gatherConnect cfg initGatherState ((r0 :: rs1) ++ (r1 :: rs2))).1).2 =
      [⟨sr, (r0 :: rs1).map (rulingMag cfg), r0.Window.Start,
        ((r0 :: rs1).map (fun r => r.Window.End)).getLastD 0,
        ((r0 :: rs1).map (fun r => r.Window.End)).getLastD 0 - r0.Window.Start, sc1,
        r0.Window.Passthrough⟩,
       ⟨sr, (r1 :: rs2).map (rulingMag cfg), r1.Window.Start,
        ((r1 :: rs2).map (fun r => r.Window.End)).getLastD 0,
        ((r1 :: rs2).map (fun r => r.Window.End)).getLastD 0 - r1.Window.Start, sc2,
        r1.Window.Passthrough⟩] := by
  have hshuffle1 : ((r0 :: rs1).map (fun r => r.Window.End)).getLastD 0 =
      (rs1.map (fun r => r.Window.End)).getLastD r0.Window.End := by
    simp only [List.map_cons, List.getLastD_cons]
  have hshuffle2 : ((r1 :: rs2).map (fun r => r.Window.End)).getLastD 0 =
      (rs2.map (fun r => r.Window.End)).getLastD r1.Window.End := by
    simp only [List.map_cons, List.getLastD_cons]
  -- the first ruling creates the span
  have hstep0 : gatherStep cfg initGatherState r0 =
      (⟨[(sr, ⟨sr, [rulingMag cfg r0], r0.Window.Start, r0.Window.End, 0, 0,
               r0.Window.Passthrough⟩)], [(sr, r0.Window.End)]⟩, []) := by
    unfold gatherStep
    rw [rulingMag_of_isSome (hval1 r0 (List.mem_cons_self r0 rs1))]
    simp [hser1 r0 (List.mem_cons_self r0 rs1), initGatherState, getEntry, setEntry,
      hanom1 r0 (List.mem_cons_self r0 rs1)]
  -- the rest of the first run is merged in
  have hrun1 := gather_run cfg sr rs1
    ⟨[(sr, ⟨sr, [rulingMag cfg r0], r0.Window.Start, r0.Window.End, 0, 0,
            r0.Window.Passthrough⟩)], [(sr, r0.Window.End)]⟩
    ⟨sr, [rulingMag cfg r0], r0.Window.Start, r0.Window.End, 0, 0, r0.Window.Passthrough⟩
    (by simp [getEntry]) (by simp)
    (fun x hx => hser1 x (List.mem_cons_of_mem r0 hx))
    (fun x hx => hanom1 x (List.mem_cons_of_mem r0 hx))
    (fun x hx => hval1 x (List.mem_cons_of_mem r0 hx))
    (fun x hx => sign_match (hcls1 r0 (List.mem_cons_self r0 rs1))
      (hcls1 x (List.mem_cons_of_mem r0 hx)))
  have habs1 : spanAbsorb cfg
      ⟨sr, [rulingMag cfg r0], r0.Window.Start, r0.Window.End, 0, 0, r0.Window.Passthrough⟩ rs1 =
      ⟨sr, (r0 :: rs1).map (rulingMag cfg), r0.Window.Start,
       ((r0 :: rs1).map (fun r => r.Window.End)).getLastD 0, 0, 0, r0.Window.Passthrough⟩ := by
    rw [spanAbsorb_eq, hshuffle1]
    simp
  have hconn1 : gatherConnect cfg initGatherState (r0 :: rs1) =
      (⟨[(sr, ⟨sr, (r0 :: rs1).map (rulingMag cfg), r0.Window.Start,
               ((r0 :: rs1).map (fun r => r.Window.End)).getLastD 0, 0, 0,
               r0.Window.Passthrough⟩)],
         [(sr, ((r0 :: rs1).map (fun r => r.Window.End)).getLastD 0)]⟩, []) := by
    simp only [gatherConnect, hstep0, hrun1, foldl_setEntry_single, habs1, hshuffle1]
    simp [setEntry]
  refine ⟨hconn1, ?_⟩
  -- the opposite-sign boundary ruling flushes span one and starts span two
  have hcondF : ¬ ((0 ≤ rulingMag cfg r0 ∧ 0 ≤ rulingMag cfg r1) ∨
      (rulingMag cfg r0 < 0 ∧ rulingMag cfg r1 < 0)) :=
    sign_mismatch (hcls1 r0 (List.mem_cons_self r0 rs1))
      (hcls2 r1 (List.mem_cons_self r1 rs2))
  have hstepb : gatherStep cfg
      ⟨[(sr, ⟨sr, (r0 :: rs1).map (rulingMag cfg), r0.Window.Start,
              ((r0 :: rs1).map (fun r => r.Window.End)).getLastD 0, 0, 0,
              r0.Window.Passthrough⟩)],
        [(sr, ((r0 :: rs1).map (fun r => r.Window.End)).getLastD 0)]⟩ r1 =
      (⟨[(sr, ⟨sr, [rulingMag cfg r1], r1.Window.Start, r1.Window.End, 0, 0,
               r1.Window.Passthrough⟩)], []⟩,
       [⟨sr, (r0 :: rs1).map (rulingMag cfg), r0.Window.Start,
         ((r0 :: rs1).map (fun r => r.Window.End)).getLastD 0,
         ((r0 :: rs1).map (fun r => r.Window.End)).getLastD 0 - r0.Window.Start, sc1,
         r0.Window.Passthrough⟩]) := by
    have hagg1c : cfg.aggregator (rulingMag cfg r0 :: List.map (rulingMag cfg) rs1) = some sc1 := by
      simpa using hagg1
    unfold gatherStep
    rw [rulingMag_of_isSome (hval2 r1 (List.mem_cons_self r1 rs2))]
    simp [hser2 r1 (List.mem_cons_self r1 rs2), getEntry, setEntry, delEntry,
      hanom2 r1 (List.mem_cons_self r1 rs2), eq_false hcondF,
      FlushSpan, flushSpan, CalcScore, hagg1c]
  -- the rest of the second run is merged in
  have hrun2 := gather_run cfg sr rs2
    ⟨[(sr, ⟨sr, [rulingMag cfg r1], r1.Window.Start, r1.Window.End, 0, 0,
            r1.Window.Passthrough⟩)], []⟩
    ⟨sr, [rulingMag cfg r1], r1.Window.Start, r1.Window.End, 0, 0, r1.Window.Passthrough⟩
    (by simp [getEntry]) (by simp)
    (fun x hx => hser2 x (List.mem_cons_of_mem r1 hx))
    (fun x hx => hanom2 x (List.mem_cons_of_mem r1 hx))
    (fun x hx => hval2 x (List.mem_cons_of_mem r1 hx))
    (fun x hx => sign_match (hcls2 r1 (List.mem_cons_self r1 rs2))
      (hcls2 x (List.mem_cons_of_mem r1 hx)))
  have habs2 : spanAbsorb cfg
      ⟨sr, [rulingMag cfg r1], r1.Window.Start, r1.Window.End, 0, 0, r1.Window.Passthrough⟩ rs2 =
      ⟨sr, (r1 :: rs2).map (rulingMag cfg), r1.Window.Start,
       ((r1 :: rs2).map (fun r => r.Window.End)).getLastD 0, 0, 0, r1.Window.Passthrough⟩ := by
    rw [spanAbsorb_eq, hshuffle2]
    simp
  have hconnAll : gatherConnect cfg initGatherState ((r0 :: rs1) ++ (r1 :: rs2)) =
      (⟨[(sr, ⟨sr, (r1 :: rs2).map (rulingMag cfg), r1.Window.Start,
               ((r1 :: rs2).map (fun r => r.Window.End)).getLastD 0, 0, 0,
               r1.Window.Passthrough⟩)],
         rs2.foldl (fun n r => setEntry sr r.Window.End n) []⟩,
       [⟨sr, (r0 :: rs1).map (rulingMag cfg), r0.Window.Start,
         ((r0 :: rs1).map (fun r => r.Window.End)).getLastD 0,
         ((r0 :: rs1).map (fun r => r.Window.End)).getLastD 0 - r0.Window.Start, sc1,
         r0.Window.Passthrough⟩]) := by
    rw [gatherConnect_append, hconn1]
    simp only [gatherConnect, hstepb, hrun1]
    rw [hrun2]
    simp only [habs2]
    simp [setEntry]
  rw [hconnAll]
  -- the expiry sweep flushes the remaining span
  have hexp : SpanExpired cfg
      ⟨sr, (r1 :: rs2).map (rulingMag cfg), r1.Window.Start,
       ((r1 :: rs2).map (fun r => r.Window.End)).getLastD 0, 0, 0,
       r1.Window.Passthrough⟩ T = true := by
    simp only [SpanExpired, Bool.or_eq_true, decide_eq_true_eq]
    left; left
    exact hT
  have hagg2c : cfg.aggregator (rulingMag cfg r1 :: List.map (rulingMag cfg) rs2) = some sc2 := by
    simpa using hagg2
  simp only [FlushExpiredSpans, List.foldl_cons, List.foldl_nil, hexp, if_true,
    FlushSpan, flushSpan, CalcScore]
  simp [hagg2c, delEntry]

/-- Witness for C1: a positive run (magnitudes 2 then 3) on series "A"
merges into one span `[2, 3]`; the opposite-sign ruling (magnitude -1)
flushes it and starts a new span; after an expiry sweep both spans are
emitted in order with disjoint magnitude sequences. -/
theorem spanAssembler_sign_runs_witness :
    GatherRt.aggregator ⟨1, "v", 1000000000000000, statsSum⟩ [2, 3] = some 5 ∧
    GatherRt.aggregator ⟨1, "v", 1000000000000000, statsSum⟩ [-1] = some (-1) ∧
    gatherConnect ⟨1, "v", 1000000000000000, statsSum⟩ initGatherState
        [⟨⟨"A", 0, 10, 0, "p"⟩, true, [("v", 2)]⟩, ⟨⟨"A", 10, 20, 0, "p"⟩, true, [("v", 3)]⟩] =
      (⟨[("A", ⟨"A", [2, 3], 0, 20, 0, 0, "p"⟩)], [("A", 20)]⟩, []) ∧
    (gatherConnect ⟨1, "v", 1000000000000000, statsSum⟩ initGatherState
        ([(⟨⟨"A", 0, 10, 0, "p"⟩, true, [("v", 2)]⟩ : Ruling), ⟨⟨"A", 10, 20, 0, "p"⟩, true, [("v", 3)]⟩] ++
         [⟨⟨"A", 20, 30, 0, "p"⟩, true, [("v", -1)]⟩])).2 ++
      (FlushExpiredSpans ⟨1, "v", 1000000000000000, statsSum⟩ 2000000000
        (gatherConnect ⟨1, "v", 1000000000000000, statsSum⟩ initGatherState
          ([(⟨⟨"A", 0, 10, 0, "p"⟩, true, [("v", 2)]⟩ : Ruling), ⟨⟨"A", 10, 20, 0, "p"⟩, true, [("v", 3)]⟩] ++
           [⟨⟨"A", 20, 30, 0, "p"⟩, true, [("v", -1)]⟩])).1).2 =
      [⟨"A", [2, 3], 0, 20, 20, 5, "p"⟩, ⟨"A", [-1], 20, 30, 10, -1, "p"⟩] := by
  have hagg1 : GatherRt.aggregator ⟨1, "v", 1000000000000000, statsSum⟩
      (([(⟨⟨"A", 0, 10, 0, "p"⟩, true, [("v", 2)]⟩ : Ruling),
         ⟨⟨"A", 10, 20, 0, "p"⟩, true, [("v", 3)]⟩]).map
        (rulingMag ⟨1, "v", 1000000000000000, statsSum⟩)) = some 5 := by
    simp [rulingMag, getRulingValue, getEntry, statsSum]
    norm_num
  have hagg2 : GatherRt.aggregator ⟨1, "v", 1000000000000000, statsSum⟩
      (([(⟨⟨"A", 20, 30, 0, "p"⟩, true, [("v", -1)]⟩ : Ruling)]).map
        (rulingMag ⟨1, "v", 1000000000000000, statsSum⟩)) = some (-1) := by
    simp [rulingMag, getRulingValue, getEntry, statsSum]
  have h := spanAssembler_sign_runs ⟨1, "v", 1000000000000000, statsSum⟩ "A"
    ⟨⟨"A", 0, 10, 0, "p"⟩, true, [("v", 2)]⟩ [⟨⟨"A", 10, 20, 0, "p"⟩, true, [("v", 3)]⟩]
    ⟨⟨"A", 20, 30, 0, "p"⟩, true, [("v", -1)]⟩ [] true 5 (-1) 2000000000
    (by decide) (by decide) (by decide) (by decide) (by decide) (by decide)
    (by decide) (by decide) hagg1 hagg2 (by decide)
  refine ⟨?_, ?_, ?_, ?_⟩
  · simpa using hagg1
  · simpa using hagg2
  · rw [h.1]; decide
  · rw [h.2]; decide
